import Mathlib

/-!
Shallow embedding of the delivery_routing core (routing.py,
delivery_planner.py, geoapify_client.py, models.py) and proofs about it.
Python floats are modelled as real numbers, dicts as functions or
association lists, raised exceptions as Except values, and sets of small
integer indices as ascending lists (CPython iterates such sets in
ascending order, which is what the min calls in routing.py observe).
-/

open scoped Classical

noncomputable section

open List

/-- math.radians: degrees to radians. -/
def radians (x : ℝ) : ℝ := x * Real.pi / 180

/-- models.DeliveryRequest.  The desired_date field is a datetime.date in
the source; it is modelled as an integer (any linearly ordered stand-in
works, only comparisons are performed on it). -/
structure DeliveryRequest where
  recipient : String
  postcode : String
  desired_date : ℤ
  notes : Option String := none

/-- models.GeocodedLocation.  The raw field of the source dataclass (the
untouched Geoapify payload) is never read by the core and is omitted. -/
structure GeocodedLocation where
  identifier : String
  latitude : ℝ
  longitude : ℝ

/-- models.DayPlan. -/
structure DayPlan where
  date : ℤ
  requests : List DeliveryRequest
  stop_order : List String
  drive_minutes : ℝ
  service_minutes : ℝ
  feasible : Bool
  reason : Option String := none

/-- models.DayPlan.total_minutes (a derived property). -/
def DayPlan.total_minutes (p : DayPlan) : ℝ := p.drive_minutes + p.service_minutes

namespace Routing

/-- routing._haversine, translated expression by expression.  Note that
the source computes dlon as math.radians(lat2 - lon1): the latitude of b
minus the longitude of a.  This is translated as written. -/
def _haversine (a b : ℝ × ℝ) : ℝ :=
  let R : ℝ := 6371
  let lat1 := a.1
  let lon1 := a.2
  let lat2 := b.1
  let dlat := radians (lat2 - lat1)
  let dlon := radians (lat2 - lon1)
  let h := Real.sin (dlat / 2) ^ 2 +
    Real.cos (radians lat1) * Real.cos (radians lat2) * Real.sin (dlon / 2) ^ 2
  2 * R * Real.arcsin (Real.sqrt h)

/-- The argmin step of Python min(unvisited, key=...): scan the iterable,
replacing the running best only on a strictly smaller key, so the first
minimiser in iteration order wins.  CPython iterates a set of small
indices in ascending order, so unvisited is modelled as an ascending
list. -/
def nnPick (coords : List (ℝ × ℝ)) (current : ℕ) (u : ℕ) (us : List ℕ) : ℕ :=
  us.foldl (fun best i =>
    if _haversine (coords.getD current (0, 0)) (coords.getD i (0, 0)) <
        _haversine (coords.getD current (0, 0)) (coords.getD best (0, 0)) then i
    else best) u

/-- The while loop of routing._nearest_neighbor_order: pick the nearest
unvisited stop by _haversine from the current stop, append, advance. -/
def nnAux (coords : List (ℝ × ℝ)) (current : ℕ) (unvisited : List ℕ) : List ℕ :=
  match unvisited with
  | [] => []
  | u :: us =>
    let nxt := nnPick coords current u us
    nxt :: nnAux coords nxt ((u :: us).erase nxt)
termination_by unvisited.length
decreasing_by
  have hmem : ∀ (d : ℕ → ℝ) (xs : List ℕ) (x : ℕ),
      xs.foldl (fun best i => if d i < d best then i else best) x ∈ x :: xs := by
    intro d xs
    induction xs with
    | nil => intro x; simp
    | cons y ys ih =>
      intro x
      simp only [List.foldl_cons]
      by_cases hc : d y < d x
      · rw [if_pos hc]
        exact List.mem_cons_of_mem x (ih y)
      · rw [if_neg hc]
        rcases List.mem_cons.1 (ih x) with h | h
        · rw [h]; exact List.mem_cons_self _ _
        · exact List.mem_cons_of_mem x (List.mem_cons_of_mem y h)
  have hm : nnPick coords current u us ∈ u :: us := by
    unfold nnPick
    exact hmem (fun i => _haversine (coords.getD current (0, 0)) (coords.getD i (0, 0))) us u
  rw [List.length_erase_of_mem hm]
  simp

/-- routing._nearest_neighbor_order: coords[0] is the depot; the unvisited
set starts as range(1, n). -/
def _nearest_neighbor_order (coords : List (ℝ × ℝ)) : List ℕ :=
  0 :: nnAux coords 0 (List.range' 1 (coords.length - 1))

/-- routing._route_length: the summed _haversine length of the open path
described by consecutive pairs of order (zip of order with its tail). -/
def _route_length (order : List ℕ) (coords : List (ℝ × ℝ)) : ℝ :=
  ((order.zip order.tail).map
    (fun p => _haversine (coords.getD p.1 (0, 0)) (coords.getD p.2 (0, 0)))).sum

/-- One 2-opt candidate: best[:i] + best[i:j][::-1] + best[j:]. -/
def twoOptSwap (best : List ℕ) (i j : ℕ) : List ℕ :=
  best.take i ++ ((best.drop i).take (j - i)).reverse ++ best.drop j

/-- The index pairs scanned by the nested for loops of _two_opt:
i in range(1, n-2), j in range(i+1, n-1). -/
def twoOptPairs (n : ℕ) : List (ℕ × ℕ) :=
  (List.range' 1 (n - 3)).flatMap
    (fun i => (List.range' (i + 1) (n - 2 - i)).map (fun j => (i, j)))

/-- The body of the nested loops of _two_opt: accept the reversal when it
strictly shortens the route, carrying (best, best_len, improved). -/
def twoOptStep (coords : List (ℝ × ℝ)) (s : List ℕ × ℝ × Bool) (ij : ℕ × ℕ) :
    List ℕ × ℝ × Bool :=
  let new_route := twoOptSwap s.1 ij.1 ij.2
  let new_len := _route_length new_route coords
  if new_len < s.2.1 then (new_route, new_len, true) else s

/-- One full scan of the nested for loops of _two_opt. -/
def twoOptPass (coords : List (ℝ × ℝ)) (best : List ℕ) : List ℕ × ℝ × Bool :=
  (twoOptPairs best.length).foldl (twoOptStep coords)
    (best, _route_length best coords, false)

/-- Termination measure for the while loop of _two_opt: the number of
permutations of the current route that are strictly shorter than it.  An
accepted pass strictly shortens the route, so this count strictly
drops. -/
def twoOptMeasure (coords : List (ℝ × ℝ)) (best : List ℕ) : ℕ :=
  best.permutations.countP
    (fun r => decide (_route_length r coords < _route_length best coords))

/-- The while loop of routing._two_opt: rescan until a full scan of the
nested loops accepts no reversal, then return the current best route. -/
def twoOptLoop (coords : List (ℝ × ℝ)) (best : List ℕ) : List ℕ :=
  if h : (twoOptPass coords best).2.2 = true then
    twoOptLoop coords (twoOptPass coords best).1
  else best
termination_by twoOptMeasure coords best
decreasing_by
  have hswap : ∀ (l : List ℕ) (i j : ℕ), i ≤ j → twoOptSwap l i j ~ l := by
    intro l i j hij
    have hd : (l.drop i).drop (j - i) = l.drop j := by
      rw [List.drop_drop]
      congr 1
      omega
    have hsplit : (l.drop i).take (j - i) ++ l.drop j = l.drop i := by
      rw [← hd, List.take_append_drop]
    calc twoOptSwap l i j
        = l.take i ++ (((l.drop i).take (j - i)).reverse ++ l.drop j) := by
          rw [twoOptSwap, List.append_assoc]
      _ ~ l.take i ++ ((l.drop i).take (j - i) ++ l.drop j) :=
          List.Perm.append_left _ (List.Perm.append_right _ (List.reverse_perm _))
      _ = l := by rw [hsplit, List.take_append_drop]
  have hpairs : ∀ p ∈ twoOptPairs best.length, p.1 ≤ p.2 := by
    intro p hp
    simp only [twoOptPairs, List.mem_flatMap, List.mem_map] at hp
    obtain ⟨i, hi, j, hj, rfl⟩ := hp
    have hj1 := List.mem_range'_1.1 hj
    omega
  have hfold : ∀ (ps : List (ℕ × ℕ)), (∀ p ∈ ps, p.1 ≤ p.2) →
      ∀ (st : List ℕ × ℝ × Bool),
        st.1 ~ best →
        st.2.1 = _route_length st.1 coords →
        st.2.1 ≤ _route_length best coords →
        (st.2.2 = true → st.2.1 < _route_length best coords) →
        ((ps.foldl (twoOptStep coords) st).1 ~ best ∧
          (ps.foldl (twoOptStep coords) st).2.1 =
            _route_length (ps.foldl (twoOptStep coords) st).1 coords ∧
          (ps.foldl (twoOptStep coords) st).2.1 ≤ _route_length best coords ∧
          ((ps.foldl (twoOptStep coords) st).2.2 = true →
            (ps.foldl (twoOptStep coords) st).2.1 < _route_length best coords)) := by
    intro ps
    induction ps with
    | nil => intro _ st h1 h2 h3 h4; exact ⟨h1, h2, h3, h4⟩
    | cons q qs ih =>
      intro hle st h1 h2 h3 h4
      simp only [List.foldl_cons]
      by_cases hc : _route_length (twoOptSwap st.1 q.1 q.2) coords < st.2.1
      · have hstep : twoOptStep coords st q =
            (twoOptSwap st.1 q.1 q.2,
              _route_length (twoOptSwap st.1 q.1 q.2) coords, true) := by
          simp only [twoOptStep]
          rw [if_pos hc]
        rw [hstep]
        exact ih (fun p hp => hle p (List.mem_cons_of_mem q hp)) _
          ((hswap st.1 q.1 q.2 (hle q (List.mem_cons_self q qs))).trans h1)
          rfl
          (le_of_lt (lt_of_lt_of_le hc h3))
          (fun _ => lt_of_lt_of_le hc h3)
      · have hstep : twoOptStep coords st q = st := by
          simp only [twoOptStep]
          rw [if_neg hc]
        rw [hstep]
        exact ih (fun p hp => hle p (List.mem_cons_of_mem q hp)) st h1 h2 h3 h4
  have hresult := hfold (twoOptPairs best.length) hpairs
    (best, _route_length best coords, false) (List.Perm.refl best) rfl le_rfl (by simp)
  obtain ⟨hp1, hp2, hp3, hp4⟩ := hresult
  have hlt : _route_length (twoOptPass coords best).1 coords <
      _route_length best coords := by
    have hx := hp4 h
    rw [hp2] at hx
    exact hx
  have hp1p : (twoOptPass coords best).1 ~ best := hp1
  have hmemperm : (twoOptPass coords best).1 ∈ best.permutations :=
    List.mem_permutations.2 hp1p
  have hcnt : ∀ (p q : List ℕ → Bool) (l : List (List ℕ)) (x : List ℕ),
      (∀ y, p y = true → q y = true) → x ∈ l → p x = false → q x = true →
      l.countP p < l.countP q := by
    intro p q l x hpq
    induction l with
    | nil => intro hx; cases hx
    | cons a t ih =>
      intro hx hpx hqx
      rw [List.countP_cons, List.countP_cons]
      have hmono : t.countP p ≤ t.countP q :=
        List.countP_mono_left (fun y _ hy => hpq y hy)
      rcases List.mem_cons.1 hx with heq | hat
      · rw [← heq, hpx, hqx]
        simp only [Bool.false_eq_true, if_false, if_true]
        omega
      · have hih := ih hat hpx hqx
        have hterm : (if p a = true then 1 else 0) ≤ (if q a = true then 1 else 0) := by
          by_cases hpa : p a = true
          · rw [if_pos hpa, if_pos (hpq a hpa)]
          · rw [if_neg hpa]
            omega
        omega
  unfold twoOptMeasure
  rw [List.Perm.countP_eq _ hp1p.permutations]
  exact hcnt _ _ best.permutations (twoOptPass coords best).1
    (fun y hy => by
      rw [decide_eq_true_eq] at hy ⊢
      exact lt_trans hy hlt)
    hmemperm (decide_eq_false (lt_irrefl _)) (decide_eq_true hlt)

/-- routing._two_opt: 2-opt local search seeded with order; the loop state
(best, best_len, improved) of the source is threaded by twoOptPass. -/
def _two_opt (order : List ℕ) (coords : List (ℝ × ℝ)) : List ℕ :=
  twoOptLoop coords order

end Routing

namespace DeliveryPlanner

/-- delivery_planner._haversine_km: the standard haversine formula with
Earth radius 6371 km, all four coordinates converted to radians first. -/
def _haversine_km (a b : GeocodedLocation) : ℝ :=
  let lat1 := radians a.latitude
  let lon1 := radians a.longitude
  let lat2 := radians b.latitude
  let lon2 := radians b.longitude
  let dlon := lon2 - lon1
  let dlat := lat2 - lat1
  let angle := 2 * Real.arcsin (Real.sqrt
    (Real.sin (dlat / 2) ^ 2 + Real.cos lat1 * Real.cos lat2 * Real.sin (dlon / 2) ^ 2))
  let earth_radius_km : ℝ := 6371
  angle * earth_radius_km

end DeliveryPlanner

namespace DeliveryPlanner

/-- The sort key of _cluster_by_proximity: the tuple (latitude, longitude,
desired_date, postcode), compared lexicographically as Python compares
tuples. -/
def reqKey (locations : String → GeocodedLocation) (r : DeliveryRequest) :
    ℝ ×ₗ (ℝ ×ₗ (ℤ ×ₗ String)) :=
  toLex ((locations r.postcode).latitude,
    toLex ((locations r.postcode).longitude, toLex (r.desired_date, r.postcode)))

/-- Python sorted(deliveries, key=...) is a stable ascending sort by the
key; List.mergeSort is a stable sort, so this is a faithful model. -/
def sortDeliveries (locations : String → GeocodedLocation)
    (deliveries : List DeliveryRequest) : List DeliveryRequest :=
  deliveries.mergeSort (fun a b => decide (reqKey locations a ≤ reqKey locations b))

/-- The all(...) test of the inner loop of _cluster_by_proximity: the
request is within max_group_km of every existing member of the cluster. -/
def fitsCluster (locations : String → GeocodedLocation) (max_group_km : ℝ)
    (request : DeliveryRequest) (cluster : List DeliveryRequest) : Prop :=
  ∀ existing ∈ cluster,
    _haversine_km (locations request.postcode) (locations existing.postcode) ≤ max_group_km

/-- The for/else walk over existing clusters: append the request to the
first cluster it fits (cluster.append puts it at the end), otherwise open
a new singleton cluster at the end of the cluster list. -/
def joinFirst (locations : String → GeocodedLocation) (max_group_km : ℝ)
    (request : DeliveryRequest) :
    List (List DeliveryRequest) → List (List DeliveryRequest)
  | [] => [[request]]
  | c :: rest =>
    if fitsCluster locations max_group_km request c then (c ++ [request]) :: rest
    else c :: joinFirst locations max_group_km request rest

/-- delivery_planner._cluster_by_proximity: sort by the geography-first
key, then fold each request into the first cluster whose members are all
within max_group_km. -/
def _cluster_by_proximity (deliveries : List DeliveryRequest)
    (locations : String → GeocodedLocation) (max_group_km : ℝ) :
    List (List DeliveryRequest) :=
  (sortDeliveries locations deliveries).foldl
    (fun clusters request => joinFirst locations max_group_km request clusters) []

end DeliveryPlanner

namespace GeoapifyClient

/-- The _dedupe inner function of GeoapifyClient.route_matrix: keep the
first occurrence of each identifier, preserving order (seen is the Python
set of identifiers already kept). -/
def dedupeGo (seen : List String) : List GeocodedLocation → List GeocodedLocation
  | [] => []
  | item :: rest =>
    if item.identifier ∈ seen then dedupeGo seen rest
    else item :: dedupeGo (item.identifier :: seen) rest

/-- The _dedupe closure of route_matrix. -/
def _dedupe (sequence : List GeocodedLocation) : List GeocodedLocation :=
  dedupeGo [] sequence

/-- The index_by_id / locations accumulation loop of route_matrix: a dict
from identifier to position in the combined location list, modelled as an
association list, together with the combined list. -/
def indexLocsGo (index_by_id : List (String × ℕ)) (locations : List GeocodedLocation) :
    List GeocodedLocation → List (String × ℕ) × List GeocodedLocation
  | [] => (index_by_id, locations)
  | loc :: rest =>
    if (index_by_id.lookup loc.identifier).isSome then
      indexLocsGo index_by_id locations rest
    else
      indexLocsGo ((loc.identifier, locations.length) :: index_by_id)
        (locations ++ [loc]) rest

/-- GeoapifyClient.route_matrix.  The HTTP exchange is outside the model:
sources_to_targets stands for the rows of the parsed JSON response (each
cell being its time field, in seconds).  Raised ValueErrors become
Except.error with the source message.  A response with more rows than
unique origins raises IndexError in Python; such malformed responses are
outside every claim and the model reads missing positions with a default
instead. -/
def route_matrix (origins targets : List GeocodedLocation)
    (sources_to_targets : List (List ℝ)) :
    Except String (List ((String × String) × ℝ)) :=
  let unique_origins := _dedupe origins
  let unique_targets := _dedupe targets
  let idx := indexLocsGo [] [] (unique_origins ++ unique_targets)
  let sources := unique_origins.map (fun loc => (idx.1.lookup loc.identifier).getD 0)
  let target_indices :=
    unique_targets.map (fun loc => (idx.1.lookup loc.identifier).getD 0)
  if sources ≠ [] ∧ target_indices ≠ [] ∧
      sources.length * target_indices.length > 1000 then
    Except.error "Route matrix request exceeds Geoapify cell limit (1000)"
  else if sources_to_targets = [] then
    Except.error "Geoapify returned an empty matrix response"
  else
    Except.ok ((sources_to_targets.enum.map (fun orow =>
      orow.2.enum.map (fun tcell =>
        (((unique_origins.getD orow.1 ⟨"", 0, 0⟩).identifier,
          (unique_targets.getD tcell.1 ⟨"", 0, 0⟩).identifier), tcell.2 / 60)))).flatten)

end GeoapifyClient

namespace Routing

/-- Fixed-point rendering of a number with one decimal digit, modelling
the .1f conversion in the f-string of build_day_plan (round half up on
the tenths; Python rounds the underlying double half to even, which
agrees on every value considered in the claims). -/
def fmt1 (x : ℝ) : String :=
  toString ((⌊x * 10 + 1 / 2⌋ : ℤ) / 10) ++ "." ++ toString ((⌊x * 10 + 1 / 2⌋ : ℤ) % 10)

/-- The reason message of build_day_plan: the f-string interpolates only
total_minutes; the limit is not part of the message. -/
def buildReason (total_minutes : ℝ) : String :=
  "Estimated " ++ fmt1 total_minutes ++ " min exceeds limit"

/-- The coordinates list of build_day_plan: [depot] + one geocoded
location per request, in request order. -/
def planCoordinates (deliveries : List DeliveryRequest)
    (geo_locations : String → GeocodedLocation) (depot : GeocodedLocation) :
    List GeocodedLocation :=
  depot :: deliveries.map (fun r => geo_locations r.postcode)

/-- The coords_latlon list of build_day_plan. -/
def planLatLon (deliveries : List DeliveryRequest)
    (geo_locations : String → GeocodedLocation) (depot : GeocodedLocation) :
    List (ℝ × ℝ) :=
  (planCoordinates deliveries geo_locations depot).map
    (fun loc => (loc.latitude, loc.longitude))

/-- The tour order of build_day_plan: nearest neighbor then 2-opt. -/
def planOrder (deliveries : List DeliveryRequest)
    (geo_locations : String → GeocodedLocation) (depot : GeocodedLocation) : List ℕ :=
  _two_opt (_nearest_neighbor_order (planLatLon deliveries geo_locations depot))
    (planLatLon deliveries geo_locations depot)

/-- The edge list of build_day_plan: consecutive pairs of the order plus
the closing edge back from the last stop to the depot. -/
def planEdges (deliveries : List DeliveryRequest)
    (geo_locations : String → GeocodedLocation) (depot : GeocodedLocation) :
    List (ℕ × ℕ) :=
  (planOrder deliveries geo_locations depot).zip
      (planOrder deliveries geo_locations depot).tail ++
    [((planOrder deliveries geo_locations depot).getLastD 0,
      (planOrder deliveries geo_locations depot).headD 0)]

/-- routing.build_day_plan.  The matrix_builder callable is abstract, as
in the source: it receives the coordinate list and the requested edges
and yields, per edge, the time cell in seconds (none models absence of
the key from the returned dict, which the source skips when summing). -/
def build_day_plan (date_label : ℤ) (deliveries : List DeliveryRequest)
    (geo_locations : String → GeocodedLocation) (depot : GeocodedLocation)
    (matrix_builder : List GeocodedLocation → List (ℕ × ℕ) → ((ℕ × ℕ) → Option ℝ))
    (service_minutes_per_stop : ℝ) (max_workday_minutes : ℝ) :
    Except String DayPlan :=
  if deliveries = [] then
    Except.error "At least one delivery is required to build a day plan"
  else
    let labels := "Depot" :: deliveries.map (fun r => r.postcode)
    let order := planOrder deliveries geo_locations depot
    let edges := planEdges deliveries geo_locations depot
    let matrix := matrix_builder (planCoordinates deliveries geo_locations depot) edges
    let drive_minutes := (edges.map (fun e =>
      match matrix e with
      | some t => t / 60
      | none => 0)).sum
    let service_minutes := (deliveries.length : ℝ) * service_minutes_per_stop
    let total_minutes := drive_minutes + service_minutes
    Except.ok
      { date := date_label
        requests := deliveries
        stop_order := order.tail.map (fun i => labels.getD i "")
        drive_minutes := drive_minutes
        service_minutes := service_minutes
        feasible := decide (total_minutes ≤ max_workday_minutes)
        reason := if total_minutes ≤ max_workday_minutes then none
          else some (buildReason total_minutes) }

end Routing

/-- The haversine distance of the clusterer is symmetric. -/
theorem haversine_km_comm (a b : GeocodedLocation) :
    DeliveryPlanner._haversine_km a b = DeliveryPlanner._haversine_km b a := by
  simp only [DeliveryPlanner._haversine_km]
  rw [show radians b.latitude - radians a.latitude
        = -(radians a.latitude - radians b.latitude) by ring,
      show radians b.longitude - radians a.longitude
        = -(radians a.longitude - radians b.longitude) by ring,
      neg_div, neg_div, Real.sin_neg, Real.sin_neg, neg_sq, neg_sq]
  ring_nf

/-- The haversine distance of the clusterer from a point to itself is 0. -/
theorem haversine_km_self (a : GeocodedLocation) :
    DeliveryPlanner._haversine_km a a = 0 := by
  simp [DeliveryPlanner._haversine_km]

namespace DeliveryPlanner

/-- The pairwise-closeness predicate of the clustering invariant: every
(positionally ordered) pair of members of the cluster is within
max_group_km in both argument orders of _haversine_km. -/
def closePair (locations : String → GeocodedLocation) (max_group_km : ℝ)
    (a b : DeliveryRequest) : Prop :=
  _haversine_km (locations a.postcode) (locations b.postcode) ≤ max_group_km ∧
  _haversine_km (locations b.postcode) (locations a.postcode) ≤ max_group_km

end DeliveryPlanner

theorem joinFirst_pairwise (locations : String → GeocodedLocation) (max_group_km : ℝ)
    (request : DeliveryRequest) (clusters : List (List DeliveryRequest))
    (h : ∀ c ∈ clusters, c.Pairwise (DeliveryPlanner.closePair locations max_group_km)) :
    ∀ c ∈ DeliveryPlanner.joinFirst locations max_group_km request clusters,
      c.Pairwise (DeliveryPlanner.closePair locations max_group_km) := by
  induction clusters with
  | nil =>
    intro c hc
    simp only [DeliveryPlanner.joinFirst, List.mem_singleton] at hc
    subst hc
    simp
  | cons c0 rest ih =>
    intro c hc
    by_cases hfit : DeliveryPlanner.fitsCluster locations max_group_km request c0
    · simp only [DeliveryPlanner.joinFirst, if_pos hfit, List.mem_cons] at hc
      rcases hc with hc | hc
      · subst hc
        rw [List.pairwise_append]
        refine ⟨h c0 (by simp), by simp, ?_⟩
        intro a ha b hb
        rw [List.mem_singleton] at hb
        subst hb
        have hd := hfit a ha
        exact ⟨by rw [haversine_km_comm]; exact hd, hd⟩
      · exact h c (by simp [hc])
    · simp only [DeliveryPlanner.joinFirst, if_neg hfit, List.mem_cons] at hc
      rcases hc with hc | hc
      · subst hc
        exact h c (by simp)
      · exact ih (fun d hd => h d (by simp [hd])) c hc

/-- C2: every cluster produced by _cluster_by_proximity satisfies the
all-pairs rule: any two members are within max_group_km of each other
(in either argument order of the distance function). -/
theorem cluster_by_proximity_all_pairs_close
    (deliveries : List DeliveryRequest) (locations : String → GeocodedLocation)
    (max_group_km : ℝ) (c : List DeliveryRequest)
    (hc : c ∈ DeliveryPlanner._cluster_by_proximity deliveries locations max_group_km) :
    c.Pairwise (DeliveryPlanner.closePair locations max_group_km) := by
  unfold DeliveryPlanner._cluster_by_proximity at hc
  revert hc
  generalize DeliveryPlanner.sortDeliveries locations deliveries = l
  have main : ∀ (l : List DeliveryRequest) (acc : List (List DeliveryRequest)),
      (∀ d ∈ acc, d.Pairwise (DeliveryPlanner.closePair locations max_group_km)) →
      ∀ d ∈ l.foldl
        (fun clusters request =>
          DeliveryPlanner.joinFirst locations max_group_km request clusters) acc,
        d.Pairwise (DeliveryPlanner.closePair locations max_group_km) := by
    intro l
    induction l with
    | nil => intro acc hacc d hd; exact hacc d hd
    | cons r t ih =>
      intro acc hacc d hd
      exact ih _ (joinFirst_pairwise locations max_group_km r acc hacc) d hd
  intro hc
  exact main l [] (by simp) c hc

/-- Witness for C2, instantiated at a concrete one-request run. -/
theorem cluster_by_proximity_all_pairs_close_witness :
    ([⟨"A", "P", 0, none⟩] : List DeliveryRequest) ∈
      DeliveryPlanner._cluster_by_proximity [⟨"A", "P", 0, none⟩]
        (fun _ => ⟨"L", 0, 0⟩) 12 ∧
    ([⟨"A", "P", 0, none⟩] : List DeliveryRequest).Pairwise
      (DeliveryPlanner.closePair (fun _ => ⟨"L", 0, 0⟩) 12) := by
  have hmem : ([⟨"A", "P", 0, none⟩] : List DeliveryRequest) ∈
      DeliveryPlanner._cluster_by_proximity [⟨"A", "P", 0, none⟩]
        (fun _ => ⟨"L", 0, 0⟩) 12 := by
    simp [DeliveryPlanner._cluster_by_proximity, DeliveryPlanner.sortDeliveries,
      DeliveryPlanner.joinFirst]
  exact ⟨hmem, cluster_by_proximity_all_pairs_close _ _ _ _ hmem⟩

theorem joinFirst_flatten_perm (locations : String → GeocodedLocation)
    (max_group_km : ℝ) (request : DeliveryRequest)
    (clusters : List (List DeliveryRequest)) :
    (DeliveryPlanner.joinFirst locations max_group_km request clusters).flatten ~
      request :: clusters.flatten := by
  induction clusters with
  | nil => simp [DeliveryPlanner.joinFirst]
  | cons c0 rest ih =>
    by_cases hfit : DeliveryPlanner.fitsCluster locations max_group_km request c0
    · simp only [DeliveryPlanner.joinFirst, if_pos hfit, List.flatten_cons]
      rw [List.append_assoc]
      exact List.perm_middle
    · simp only [DeliveryPlanner.joinFirst, if_neg hfit, List.flatten_cons]
      calc c0 ++ (DeliveryPlanner.joinFirst locations max_group_km request rest).flatten
          ~ c0 ++ (request :: rest.flatten) := List.Perm.append_left c0 ih
        _ ~ request :: (c0 ++ rest.flatten) := List.perm_middle

theorem joinFirst_ne_nil (locations : String → GeocodedLocation)
    (max_group_km : ℝ) (request : DeliveryRequest)
    (clusters : List (List DeliveryRequest)) :
    (∀ c ∈ clusters, c ≠ []) →
    ∀ c ∈ DeliveryPlanner.joinFirst locations max_group_km request clusters, c ≠ [] := by
  induction clusters with
  | nil =>
    intro _ c hc
    simp only [DeliveryPlanner.joinFirst, List.mem_singleton] at hc
    subst hc; simp
  | cons c0 rest ih =>
    intro h c hc
    by_cases hfit : DeliveryPlanner.fitsCluster locations max_group_km request c0
    · simp only [DeliveryPlanner.joinFirst, if_pos hfit, List.mem_cons] at hc
      rcases hc with hc | hc
      · subst hc; simp
      · exact h c (by simp [hc])
    · simp only [DeliveryPlanner.joinFirst, if_neg hfit, List.mem_cons] at hc
      rcases hc with hc | hc
      · rw [hc]; exact h c0 (by simp)
      · exact ih (fun d hd => h d (by simp [hd])) c hc

theorem foldl_join_flatten_perm (locations : String → GeocodedLocation)
    (max_group_km : ℝ) :
    ∀ (l : List DeliveryRequest) (acc : List (List DeliveryRequest)),
      (l.foldl (fun clusters request =>
        DeliveryPlanner.joinFirst locations max_group_km request clusters) acc).flatten ~
        l ++ acc.flatten := by
  intro l
  induction l with
  | nil => intro acc; simp
  | cons r t ih =>
    intro acc
    calc (List.foldl _ (DeliveryPlanner.joinFirst locations max_group_km r acc) t).flatten
        ~ t ++ (DeliveryPlanner.joinFirst locations max_group_km r acc).flatten := ih _
      _ ~ t ++ (r :: acc.flatten) :=
          List.Perm.append_left t (joinFirst_flatten_perm locations max_group_km r acc)
      _ ~ r :: (t ++ acc.flatten) := List.perm_middle
      _ ~ (r :: t) ++ acc.flatten := by simp

/-- C9: the clusters returned by _cluster_by_proximity are a partition of
the input: their concatenation is a permutation of the input request list
(every request in exactly one cluster, no duplication), and every cluster
is non-empty. -/
theorem cluster_by_proximity_partition
    (deliveries : List DeliveryRequest) (locations : String → GeocodedLocation)
    (max_group_km : ℝ) :
    (DeliveryPlanner._cluster_by_proximity deliveries locations max_group_km).flatten ~
        deliveries ∧
    ∀ c ∈ DeliveryPlanner._cluster_by_proximity deliveries locations max_group_km,
      c ≠ [] := by
  constructor
  · unfold DeliveryPlanner._cluster_by_proximity
    calc (List.foldl _ [] (DeliveryPlanner.sortDeliveries locations deliveries)).flatten
        ~ DeliveryPlanner.sortDeliveries locations deliveries ++ ([] : List (List DeliveryRequest)).flatten :=
          foldl_join_flatten_perm locations max_group_km _ []
      _ ~ deliveries := by
          simpa [DeliveryPlanner.sortDeliveries] using
            List.mergeSort_perm deliveries
              (fun a b => decide (DeliveryPlanner.reqKey locations a ≤ DeliveryPlanner.reqKey locations b))
  · unfold DeliveryPlanner._cluster_by_proximity
    have main : ∀ (l : List DeliveryRequest) (acc : List (List DeliveryRequest)),
        (∀ c ∈ acc, c ≠ []) →
        ∀ c ∈ l.foldl (fun clusters request =>
            DeliveryPlanner.joinFirst locations max_group_km request clusters) acc, c ≠ [] := by
      intro l
      induction l with
      | nil => intro acc hacc; exact hacc
      | cons r t ih =>
        intro acc hacc
        exact ih _ (joinFirst_ne_nil locations max_group_km r acc hacc)
    exact main _ [] (by simp)

theorem eq_of_perm_of_sorted_key {α : Type*} {κ : Type*} [LinearOrder κ] (key : α → κ) :
    ∀ (l₁ : List α) {l₂ : List α}, l₁ ~ l₂ →
      l₁.Pairwise (fun a b => key a ≤ key b) →
      l₂.Pairwise (fun a b => key a ≤ key b) →
      (∀ a ∈ l₁, ∀ b ∈ l₁, key a = key b → a = b) → l₁ = l₂ := by
  intro l₁
  induction l₁ with
  | nil =>
    intro l₂ p _ _ _
    exact (List.Perm.eq_nil p.symm).symm
  | cons a t₁ ih =>
    intro l₂ p s₁ s₂ hinj
    cases l₂ with
    | nil => exact (List.cons_ne_nil a t₁ p.eq_nil).elim
    | cons b t₂ =>
      have hab : a = b := by
        have hb1 : b ∈ a :: t₁ := p.symm.subset (List.mem_cons_self b t₂)
        have ha2 : a ∈ b :: t₂ := p.subset (List.mem_cons_self a t₁)
        rcases List.mem_cons.1 hb1 with h | hbt₁
        · exact h.symm
        rcases List.mem_cons.1 ha2 with h | hat₂
        · exact h
        have h1 : key a ≤ key b := (List.pairwise_cons.1 s₁).1 b hbt₁
        have h2 : key b ≤ key a := (List.pairwise_cons.1 s₂).1 a hat₂
        exact hinj a (List.mem_cons_self a t₁) b hb1 (le_antisymm h1 h2)
      subst hab
      have p' : t₁ ~ t₂ := p.cons_inv
      have ht := ih p' (List.pairwise_cons.1 s₁).2 (List.pairwise_cons.1 s₂).2
        (fun x hx y hy hxy =>
          hinj x (List.mem_cons_of_mem a hx) y (List.mem_cons_of_mem a hy) hxy)
      rw [ht]

/-- C10 (amended): _cluster_by_proximity is independent of the input row
order provided no two distinct requests share the whole sort key
(latitude, longitude, desired_date, postcode); requests that agree on the
entire key are interchangeable locations, and only their relative order
inside a cluster can differ between permuted inputs. -/
theorem cluster_by_proximity_order_independent
    (l₁ l₂ : List DeliveryRequest) (locations : String → GeocodedLocation)
    (max_group_km : ℝ) (hperm : l₁ ~ l₂)
    (hinj : ∀ a ∈ l₁, ∀ b ∈ l₁,
      DeliveryPlanner.reqKey locations a = DeliveryPlanner.reqKey locations b → a = b) :
    DeliveryPlanner._cluster_by_proximity l₁ locations max_group_km =
      DeliveryPlanner._cluster_by_proximity l₂ locations max_group_km := by
  have htrans : ∀ a b c : DeliveryRequest,
      (decide (DeliveryPlanner.reqKey locations a ≤ DeliveryPlanner.reqKey locations b)) →
      (decide (DeliveryPlanner.reqKey locations b ≤ DeliveryPlanner.reqKey locations c)) →
      (decide (DeliveryPlanner.reqKey locations a ≤ DeliveryPlanner.reqKey locations c)) := by
    intro a b c hab hbc
    rw [decide_eq_true_eq] at *
    exact le_trans hab hbc
  have htotal : ∀ a b : DeliveryRequest,
      (decide (DeliveryPlanner.reqKey locations a ≤ DeliveryPlanner.reqKey locations b)) ||
      (decide (DeliveryPlanner.reqKey locations b ≤ DeliveryPlanner.reqKey locations a)) := by
    intro a b
    rw [Bool.or_eq_true, decide_eq_true_eq, decide_eq_true_eq]
    exact le_total _ _
  have hsort : DeliveryPlanner.sortDeliveries locations l₁ =
      DeliveryPlanner.sortDeliveries locations l₂ := by
    apply eq_of_perm_of_sorted_key (DeliveryPlanner.reqKey locations)
    · exact ((l₁.mergeSort_perm _).trans hperm).trans (l₂.mergeSort_perm _).symm
    · exact (List.sorted_mergeSort htrans htotal l₁).imp
        (fun hab => of_decide_eq_true hab)
    · exact (List.sorted_mergeSort htrans htotal l₂).imp
        (fun hab => of_decide_eq_true hab)
    · intro x hx y hy hxy
      exact hinj x (List.mem_mergeSort.1 hx) y (List.mem_mergeSort.1 hy) hxy
  unfold DeliveryPlanner._cluster_by_proximity
  rw [hsort]

/-- Witness for C10 (amended), instantiated at a concrete run. -/
theorem cluster_by_proximity_order_independent_witness :
    (([⟨"A", "P", 0, none⟩] : List DeliveryRequest) ~ [⟨"A", "P", 0, none⟩]) ∧
    DeliveryPlanner._cluster_by_proximity [⟨"A", "P", 0, none⟩]
        (fun _ => ⟨"L", 0, 0⟩) 12 =
      DeliveryPlanner._cluster_by_proximity [⟨"A", "P", 0, none⟩]
        (fun _ => ⟨"L", 0, 0⟩) 12 := by
  refine ⟨List.Perm.refl _, ?_⟩
  apply cluster_by_proximity_order_independent _ _ _ 12 (List.Perm.refl _)
  intro a ha b hb _
  rw [List.mem_singleton] at ha hb
  rw [ha, hb]

/-- C10 as stated fails: two permuted inputs whose two requests share the
whole sort key (same postcode, hence same coordinates, same desired date)
but have different recipients produce clusters listing the requests in
different orders. -/
theorem cluster_by_proximity_order_dependent_cex :
    (([⟨"A", "P", 0, none⟩, ⟨"B", "P", 0, none⟩] : List DeliveryRequest) ~
      [⟨"B", "P", 0, none⟩, ⟨"A", "P", 0, none⟩]) ∧
    DeliveryPlanner._cluster_by_proximity
        [⟨"A", "P", 0, none⟩, ⟨"B", "P", 0, none⟩] (fun _ => ⟨"L", 0, 0⟩) 12 ≠
      DeliveryPlanner._cluster_by_proximity
        [⟨"B", "P", 0, none⟩, ⟨"A", "P", 0, none⟩] (fun _ => ⟨"L", 0, 0⟩) 12 := by
  constructor
  · exact List.Perm.swap _ _ _
  · have heval : ∀ r1 r2 : DeliveryRequest,
        DeliveryPlanner.reqKey (fun _ => (⟨"L", 0, 0⟩ : GeocodedLocation)) r1 ≤
          DeliveryPlanner.reqKey (fun _ => (⟨"L", 0, 0⟩ : GeocodedLocation)) r2 →
        DeliveryPlanner._cluster_by_proximity [r1, r2] (fun _ => ⟨"L", 0, 0⟩) 12 =
          [[r1, r2]] := by
      intro r1 r2 hle
      unfold DeliveryPlanner._cluster_by_proximity DeliveryPlanner.sortDeliveries
      rw [List.mergeSort_of_sorted]
      · have hfits : DeliveryPlanner.fitsCluster
            (fun _ => (⟨"L", 0, 0⟩ : GeocodedLocation)) 12 r2 [r1] := by
          intro e he
          rw [List.mem_singleton] at he
          subst he
          show DeliveryPlanner._haversine_km ⟨"L", 0, 0⟩ ⟨"L", 0, 0⟩ ≤ 12
          rw [haversine_km_self]
          norm_num
        simp only [List.foldl_cons, List.foldl_nil, DeliveryPlanner.joinFirst]
        rw [if_pos hfits]
        simp
      · refine List.pairwise_cons.2 ⟨?_, by simp⟩
        intro b hb
        rw [List.mem_singleton] at hb
        subst hb
        exact decide_eq_true hle
    have hkeys : DeliveryPlanner.reqKey (fun _ => (⟨"L", 0, 0⟩ : GeocodedLocation))
        (⟨"A", "P", 0, none⟩ : DeliveryRequest) =
        DeliveryPlanner.reqKey (fun _ => (⟨"L", 0, 0⟩ : GeocodedLocation))
        (⟨"B", "P", 0, none⟩ : DeliveryRequest) := by
      simp [DeliveryPlanner.reqKey]
    rw [heval _ _ (le_of_eq hkeys), heval _ _ (le_of_eq hkeys.symm)]
    simp [DeliveryRequest.mk.injEq]

theorem foldlPick_mem (d : ℕ → ℝ) :
    ∀ (xs : List ℕ) (x : ℕ),
      xs.foldl (fun best i => if d i < d best then i else best) x ∈ x :: xs := by
  intro xs
  induction xs with
  | nil => intro x; simp
  | cons y ys ih =>
    intro x
    simp only [List.foldl_cons]
    by_cases hc : d y < d x
    · rw [if_pos hc]
      exact List.mem_cons_of_mem x (ih y)
    · rw [if_neg hc]
      rcases List.mem_cons.1 (ih x) with h | h
      · rw [h]; exact List.mem_cons_self _ _
      · exact List.mem_cons_of_mem x (List.mem_cons_of_mem y h)

theorem foldlPick_le (d : ℕ → ℝ) :
    ∀ (xs : List ℕ) (x : ℕ) (j : ℕ), j ∈ x :: xs →
      d (xs.foldl (fun best i => if d i < d best then i else best) x) ≤ d j := by
  intro xs
  induction xs with
  | nil =>
    intro x j hj
    rw [List.mem_singleton] at hj
    rw [hj]
    simp
  | cons y ys ih =>
    intro x j hj
    simp only [List.foldl_cons]
    by_cases hc : d y < d x
    · rw [if_pos hc]
      rcases List.mem_cons.1 hj with h | h
      · rw [h]
        exact le_of_lt (lt_of_le_of_lt (ih y y (List.mem_cons_self y ys)) hc)
      · exact ih y j h
    · rw [if_neg hc]
      rcases List.mem_cons.1 hj with h | h
      · rw [h]
        exact ih x x (List.mem_cons_self x ys)
      rcases List.mem_cons.1 h with h2 | h2
      · rw [h2]
        exact le_trans (ih x x (List.mem_cons_self x ys)) (not_lt.1 hc)
      · exact ih x j (List.mem_cons_of_mem x h2)

theorem foldlPick_eq_or_lt (d : ℕ → ℝ) :
    ∀ (xs : List ℕ) (x : ℕ),
      xs.foldl (fun best i => if d i < d best then i else best) x = x ∨
        d (xs.foldl (fun best i => if d i < d best then i else best) x) < d x := by
  intro xs
  induction xs with
  | nil => intro x; exact Or.inl rfl
  | cons y ys ih =>
    intro x
    simp only [List.foldl_cons]
    by_cases hc : d y < d x
    · rw [if_pos hc]
      rcases ih y with h | h
      · rw [h]; exact Or.inr hc
      · exact Or.inr (lt_trans h hc)
    · rw [if_neg hc]
      exact ih x

theorem foldlPick_first_tie (d : ℕ → ℝ) :
    ∀ (xs : List ℕ) (x : ℕ), List.Pairwise (· < ·) (x :: xs) →
      ∀ j ∈ x :: xs,
        d j = d (xs.foldl (fun best i => if d i < d best then i else best) x) →
        xs.foldl (fun best i => if d i < d best then i else best) x ≤ j := by
  intro xs
  induction xs with
  | nil =>
    intro x _ j hj _
    rw [List.mem_singleton] at hj
    rw [hj]
    simp
  | cons y ys ih =>
    intro x hsort j hj hdj
    simp only [List.foldl_cons] at hdj ⊢
    have hxy : x < y := (List.pairwise_cons.1 hsort).1 y (List.mem_cons_self y ys)
    have hsort_y : List.Pairwise (· < ·) (y :: ys) := (List.pairwise_cons.1 hsort).2
    have hsort_x : List.Pairwise (· < ·) (x :: ys) := by
      refine List.pairwise_cons.2 ⟨?_, (List.pairwise_cons.1 hsort_y).2⟩
      intro z hz
      exact lt_trans hxy ((List.pairwise_cons.1 hsort_y).1 z hz)
    by_cases hc : d y < d x
    · rw [if_pos hc] at hdj ⊢
      rcases List.mem_cons.1 hj with h | h
      · exfalso
        have hmin : d (ys.foldl (fun best i => if d i < d best then i else best) y) ≤ d y :=
          foldlPick_le d ys y y (List.mem_cons_self y ys)
        rw [h] at hdj
        have hxx : d x < d x :=
          calc d x = d (ys.foldl (fun best i => if d i < d best then i else best) y) := hdj
            _ ≤ d y := hmin
            _ < d x := hc
        exact absurd hxx (lt_irrefl _)
      · exact ih y hsort_y j h hdj
    · rw [if_neg hc] at hdj ⊢
      rcases List.mem_cons.1 hj with h | h
      · rw [h]
        rcases foldlPick_eq_or_lt d ys x with he | hlt
        · rw [he]
        · rw [← hdj, h] at hlt
          exact absurd hlt (lt_irrefl _)
      rcases List.mem_cons.1 h with h2 | h2
      · rw [h2]
        rcases foldlPick_eq_or_lt d ys x with he | hlt
        · rw [he]
          exact le_of_lt hxy
        · exfalso
          have hxle : d x ≤ d y := not_lt.1 hc
          rw [← hdj, h2] at hlt
          exact absurd (lt_of_le_of_lt hxle hlt) (lt_irrefl _)
      · exact ih x hsort_x j (List.mem_cons_of_mem x h2) hdj

theorem nnAux_perm (coords : List (ℝ × ℝ)) :
    ∀ (m : ℕ) (cur : ℕ) (l : List ℕ), l.length ≤ m →
      Routing.nnAux coords cur l ~ l := by
  intro m
  induction m with
  | zero =>
    intro cur l hl
    have hl0 : l = [] := List.length_eq_zero.1 (Nat.le_zero.1 hl)
    subst hl0
    rw [Routing.nnAux]
  | succ m ih =>
    intro cur l hl
    cases l with
    | nil => rw [Routing.nnAux]
    | cons u us =>
      rw [Routing.nnAux]
      have hmem : Routing.nnPick coords cur u us ∈ u :: us := by
        unfold Routing.nnPick
        exact foldlPick_mem
          (fun i => Routing._haversine (coords.getD cur (0, 0)) (coords.getD i (0, 0))) us u
      have hlen : ((u :: us).erase (Routing.nnPick coords cur u us)).length ≤ m := by
        rw [List.length_erase_of_mem hmem]
        simp only [List.length_cons] at hl ⊢
        omega
      exact (List.Perm.cons _ (ih _ _ hlen)).trans (List.perm_cons_erase hmem).symm

/-- The nearest-neighbor order is 0 followed by a permutation of the
remaining indices; in particular it is a permutation of range n. -/
theorem nearest_neighbor_order_perm (coords : List (ℝ × ℝ)) (hn : 1 ≤ coords.length) :
    Routing._nearest_neighbor_order coords ~ List.range coords.length ∧
    (Routing._nearest_neighbor_order coords).headD 0 = 0 := by
  constructor
  · unfold Routing._nearest_neighbor_order
    have h1 : List.range coords.length = 0 :: List.range' 1 (coords.length - 1) := by
      obtain ⟨k, hk⟩ : ∃ k, coords.length = k + 1 := ⟨coords.length - 1, by omega⟩
      rw [hk, List.range_eq_range', List.range'_succ]
      simp
    rw [h1]
    exact List.Perm.cons 0 (nnAux_perm coords _ 0 _ le_rfl)
  · rfl

theorem twoOptSwap_perm (l : List ℕ) (i j : ℕ) (hij : i ≤ j) :
    Routing.twoOptSwap l i j ~ l := by
  have hd : (l.drop i).drop (j - i) = l.drop j := by
    rw [List.drop_drop]
    congr 1
    omega
  have hsplit : (l.drop i).take (j - i) ++ l.drop j = l.drop i := by
    rw [← hd, List.take_append_drop]
  calc Routing.twoOptSwap l i j
      = l.take i ++ (((l.drop i).take (j - i)).reverse ++ l.drop j) := by
        rw [Routing.twoOptSwap, List.append_assoc]
    _ ~ l.take i ++ ((l.drop i).take (j - i) ++ l.drop j) :=
        List.Perm.append_left _ (List.Perm.append_right _ (List.reverse_perm _))
    _ = l := by rw [hsplit, List.take_append_drop]

theorem twoOptSwap_headD (l : List ℕ) (i j : ℕ) (hi : 1 ≤ i) :
    (Routing.twoOptSwap l i j).headD 0 = l.headD 0 := by
  cases l with
  | nil => simp [Routing.twoOptSwap]
  | cons a t =>
    unfold Routing.twoOptSwap
    obtain ⟨k, hk⟩ : ∃ k, i = k + 1 := ⟨i - 1, by omega⟩
    rw [hk]
    simp [List.take_succ_cons, List.cons_append]

theorem twoOptPairs_facts (n : ℕ) (p : ℕ × ℕ) (hp : p ∈ Routing.twoOptPairs n) :
    1 ≤ p.1 ∧ p.1 ≤ p.2 := by
  simp only [Routing.twoOptPairs, List.mem_flatMap, List.mem_map] at hp
  obtain ⟨i, hi, j, hj, rfl⟩ := hp
  have h1 := List.mem_range'_1.1 hi
  have h2 := List.mem_range'_1.1 hj
  omega

theorem countP_lt_of_mem {α : Type*} (p q : α → Bool) (l : List α) (x : α)
    (hpq : ∀ y, p y = true → q y = true) :
    x ∈ l → p x = false → q x = true → l.countP p < l.countP q := by
  induction l with
  | nil => intro hx; cases hx
  | cons a t ih =>
    intro hx hpx hqx
    rw [List.countP_cons, List.countP_cons]
    have hmono : t.countP p ≤ t.countP q :=
      List.countP_mono_left (fun y _ hy => hpq y hy)
    rcases List.mem_cons.1 hx with heq | hat
    · rw [← heq, hpx, hqx]
      simp only [Bool.false_eq_true, if_false, if_true]
      omega
    · have hih := ih hat hpx hqx
      have hterm : (if p a = true then 1 else 0) ≤ (if q a = true then 1 else 0) := by
        by_cases hpa : p a = true
        · rw [if_pos hpa, if_pos (hpq a hpa)]
        · rw [if_neg hpa]
          omega
      omega

theorem twoOptPass_inv (coords : List (ℝ × ℝ)) (b : List ℕ) :
    (Routing.twoOptPass coords b).1 ~ b ∧
    (Routing.twoOptPass coords b).1.headD 0 = b.headD 0 ∧
    (Routing.twoOptPass coords b).2.1 =
      Routing._route_length (Routing.twoOptPass coords b).1 coords ∧
    (Routing.twoOptPass coords b).2.1 ≤ Routing._route_length b coords ∧
    ((Routing.twoOptPass coords b).2.2 = true →
      (Routing.twoOptPass coords b).2.1 < Routing._route_length b coords) ∧
    ((Routing.twoOptPass coords b).2.2 = false →
      (Routing.twoOptPass coords b).1 = b) := by
  have hfold : ∀ (ps : List (ℕ × ℕ)), (∀ p ∈ ps, 1 ≤ p.1 ∧ p.1 ≤ p.2) →
      ∀ (st : List ℕ × ℝ × Bool),
        st.1 ~ b →
        st.1.headD 0 = b.headD 0 →
        st.2.1 = Routing._route_length st.1 coords →
        st.2.1 ≤ Routing._route_length b coords →
        (st.2.2 = true → st.2.1 < Routing._route_length b coords) →
        (st.2.2 = false → st.1 = b) →
        ((ps.foldl (Routing.twoOptStep coords) st).1 ~ b ∧
          (ps.foldl (Routing.twoOptStep coords) st).1.headD 0 = b.headD 0 ∧
          (ps.foldl (Routing.twoOptStep coords) st).2.1 =
            Routing._route_length (ps.foldl (Routing.twoOptStep coords) st).1 coords ∧
          (ps.foldl (Routing.twoOptStep coords) st).2.1 ≤ Routing._route_length b coords ∧
          ((ps.foldl (Routing.twoOptStep coords) st).2.2 = true →
            (ps.foldl (Routing.twoOptStep coords) st).2.1 <
              Routing._route_length b coords) ∧
          ((ps.foldl (Routing.twoOptStep coords) st).2.2 = false →
            (ps.foldl (Routing.twoOptStep coords) st).1 = b)) := by
    intro ps
    induction ps with
    | nil => intro _ st h1 h2 h3 h4 h5 h6; exact ⟨h1, h2, h3, h4, h5, h6⟩
    | cons q qs ih =>
      intro hle st h1 h2 h3 h4 h5 h6
      simp only [List.foldl_cons]
      by_cases hc : Routing._route_length (Routing.twoOptSwap st.1 q.1 q.2) coords < st.2.1
      · have hstep : Routing.twoOptStep coords st q =
            (Routing.twoOptSwap st.1 q.1 q.2,
              Routing._route_length (Routing.twoOptSwap st.1 q.1 q.2) coords, true) := by
          simp only [Routing.twoOptStep]
          rw [if_pos hc]
        rw [hstep]
        have hq := hle q (List.mem_cons_self q qs)
        refine ih (fun p hp => hle p (List.mem_cons_of_mem q hp)) _
          ((twoOptSwap_perm st.1 q.1 q.2 hq.2).trans h1)
          ?_ rfl (le_of_lt (lt_of_lt_of_le hc h4))
          (fun _ => lt_of_lt_of_le hc h4)
          (fun hfalse => absurd hfalse (by simp))
        rw [twoOptSwap_headD st.1 q.1 q.2 hq.1]
        exact h2
      · have hstep : Routing.twoOptStep coords st q = st := by
          simp only [Routing.twoOptStep]
          rw [if_neg hc]
        rw [hstep]
        exact ih (fun p hp => hle p (List.mem_cons_of_mem q hp)) st h1 h2 h3 h4 h5 h6
  exact hfold (Routing.twoOptPairs b.length)
    (fun p hp => twoOptPairs_facts b.length p hp)
    (b, Routing._route_length b coords, false)
    (List.Perm.refl b) rfl rfl le_rfl (by simp) (fun _ => rfl)

theorem twoOptPass_decreases (coords : List (ℝ × ℝ)) (b : List ℕ)
    (h : (Routing.twoOptPass coords b).2.2 = true) :
    Routing.twoOptMeasure coords (Routing.twoOptPass coords b).1 <
      Routing.twoOptMeasure coords b := by
  obtain ⟨hp1, _, hp2, _, hp4, _⟩ := twoOptPass_inv coords b
  have hlt : Routing._route_length (Routing.twoOptPass coords b).1 coords <
      Routing._route_length b coords := by
    have hx := hp4 h
    rw [hp2] at hx
    exact hx
  unfold Routing.twoOptMeasure
  rw [List.Perm.countP_eq _ hp1.permutations]
  exact countP_lt_of_mem _ _ b.permutations (Routing.twoOptPass coords b).1
    (fun y hy => by
      rw [decide_eq_true_eq] at hy ⊢
      exact lt_trans hy hlt)
    (List.mem_permutations.2 hp1)
    (decide_eq_false (lt_irrefl _)) (decide_eq_true hlt)

theorem twoOptLoop_inv_aux (coords : List (ℝ × ℝ)) :
    ∀ (N : ℕ) (b : List ℕ), Routing.twoOptMeasure coords b ≤ N →
      Routing.twoOptLoop coords b ~ b ∧
      (Routing.twoOptLoop coords b).headD 0 = b.headD 0 ∧
      Routing._route_length (Routing.twoOptLoop coords b) coords ≤
        Routing._route_length b coords ∧
      (Routing.twoOptPass coords (Routing.twoOptLoop coords b)).2.2 = false := by
  intro N
  induction N with
  | zero =>
    intro b hb
    have hfix : ¬((Routing.twoOptPass coords b).2.2 = true) := by
      intro h
      have := twoOptPass_decreases coords b h
      omega
    rw [Routing.twoOptLoop, dif_neg hfix]
    exact ⟨List.Perm.refl b, rfl, le_rfl, Bool.eq_false_iff.2 hfix⟩
  | succ N ih =>
    intro b hb
    by_cases h : (Routing.twoOptPass coords b).2.2 = true
    · have hdec := twoOptPass_decreases coords b h
      have hle : Routing.twoOptMeasure coords (Routing.twoOptPass coords b).1 ≤ N := by
        omega
      obtain ⟨ih1, ih2, ih3, ih4⟩ := ih (Routing.twoOptPass coords b).1 hle
      obtain ⟨hp1, hp2, hp3, hp4, hp5, _⟩ := twoOptPass_inv coords b
      rw [Routing.twoOptLoop, dif_pos h]
      refine ⟨ih1.trans hp1, ih2.trans hp2, ?_, ih4⟩
      calc Routing._route_length (Routing.twoOptLoop coords (Routing.twoOptPass coords b).1) coords
          ≤ Routing._route_length (Routing.twoOptPass coords b).1 coords := ih3
        _ = (Routing.twoOptPass coords b).2.1 := hp3.symm
        _ ≤ Routing._route_length b coords := hp4
    · rw [Routing.twoOptLoop, dif_neg h]
      exact ⟨List.Perm.refl b, rfl, le_rfl, Bool.eq_false_iff.2 h⟩

theorem twoOptLoop_inv (coords : List (ℝ × ℝ)) (b : List ℕ) :
    Routing.twoOptLoop coords b ~ b ∧
    (Routing.twoOptLoop coords b).headD 0 = b.headD 0 ∧
    Routing._route_length (Routing.twoOptLoop coords b) coords ≤
      Routing._route_length b coords ∧
    (Routing.twoOptPass coords (Routing.twoOptLoop coords b)).2.2 = false :=
  twoOptLoop_inv_aux coords (Routing.twoOptMeasure coords b) b le_rfl

theorem twoOptLoop_idem (coords : List (ℝ × ℝ)) (b : List ℕ) :
    Routing.twoOptLoop coords (Routing.twoOptLoop coords b) =
      Routing.twoOptLoop coords b := by
  have hfix := (twoOptLoop_inv coords b).2.2.2
  rw [Routing.twoOptLoop, dif_neg]
  simp [hfix]

/-- C6: for every coordinate list, 2-opt refinement never increases the
route length (the quantity the refinement measures, _route_length) versus
the nearest-neighbor seed tour it started from, and rerunning _two_opt on
its own output returns it unchanged. -/
theorem two_opt_nonincreasing_and_idempotent (coords : List (ℝ × ℝ)) :
    Routing._route_length
        (Routing._two_opt (Routing._nearest_neighbor_order coords) coords) coords ≤
      Routing._route_length (Routing._nearest_neighbor_order coords) coords ∧
    Routing._two_opt
        (Routing._two_opt (Routing._nearest_neighbor_order coords) coords) coords =
      Routing._two_opt (Routing._nearest_neighbor_order coords) coords := by
  unfold Routing._two_opt
  exact ⟨(twoOptLoop_inv coords _).2.2.1, twoOptLoop_idem coords _⟩

theorem perm_range_tail_facts (o : List ℕ) (n : ℕ) (hn : 1 ≤ n)
    (hperm : o ~ List.range n) (hhead : o.headD 0 = 0) :
    o.tail ~ List.range' 1 (n - 1) ∧ 0 ∉ o.tail := by
  have hrange : List.range n = 0 :: List.range' 1 (n - 1) := by
    obtain ⟨k, hk⟩ : ∃ k, n = k + 1 := ⟨n - 1, by omega⟩
    rw [hk, List.range_eq_range', List.range'_succ]
    simp
  cases o with
  | nil =>
    exfalso
    have hlen := hperm.length_eq
    simp at hlen
    omega
  | cons a t =>
    simp only [List.headD_cons] at hhead
    subst hhead
    rw [hrange] at hperm
    refine ⟨hperm.cons_inv, ?_⟩
    have h2 : ((0 : ℕ) :: List.range' 1 (n - 1)).Nodup := by
      rw [← hrange]
      exact List.nodup_range n
    have h3 : ((0 : ℕ) :: t).Nodup := hperm.nodup_iff.2 h2
    exact (List.nodup_cons.1 h3).1

/-- C8: for a non-empty stop set (at least depot plus one stop), the tour
order after nearest-neighbor construction and 2-opt refinement is a
permutation of all coordinate indices, starts at the depot index 0, its
tail (stop_order) is a permutation of the stop indices 1..n-1 with no
repeats or omissions, and the depot index never appears in the tail - so
the closed tour, whose final edge returns to index order[0], begins and
ends at the depot. -/
theorem tour_order_invariants (coords : List (ℝ × ℝ)) (hn : 2 ≤ coords.length) :
    Routing._two_opt (Routing._nearest_neighbor_order coords) coords ~
      List.range coords.length ∧
    (Routing._two_opt (Routing._nearest_neighbor_order coords) coords).headD 0 = 0 ∧
    (Routing._two_opt (Routing._nearest_neighbor_order coords) coords).tail ~
      List.range' 1 (coords.length - 1) ∧
    0 ∉ (Routing._two_opt (Routing._nearest_neighbor_order coords) coords).tail := by
  have hnn := nearest_neighbor_order_perm coords (by omega)
  have hloop := twoOptLoop_inv coords (Routing._nearest_neighbor_order coords)
  have hperm : Routing._two_opt (Routing._nearest_neighbor_order coords) coords ~
      List.range coords.length := hloop.1.trans hnn.1
  have hhead : (Routing._two_opt (Routing._nearest_neighbor_order coords) coords).headD 0
      = 0 := hloop.2.1.trans hnn.2
  have htail := perm_range_tail_facts _ coords.length (by omega) hperm hhead
  exact ⟨hperm, hhead, htail.1, htail.2⟩

/-- Witness for C8, instantiated at a concrete two-point coordinate
list. -/
theorem tour_order_invariants_witness :
    2 ≤ ([((0 : ℝ), (0 : ℝ)), ((0 : ℝ), (0 : ℝ))] : List (ℝ × ℝ)).length ∧
    (Routing._two_opt
        (Routing._nearest_neighbor_order [((0 : ℝ), (0 : ℝ)), ((0 : ℝ), (0 : ℝ))])
        [((0 : ℝ), (0 : ℝ)), ((0 : ℝ), (0 : ℝ))] ~
      List.range ([((0 : ℝ), (0 : ℝ)), ((0 : ℝ), (0 : ℝ))] : List (ℝ × ℝ)).length) ∧
    (Routing._two_opt
        (Routing._nearest_neighbor_order [((0 : ℝ), (0 : ℝ)), ((0 : ℝ), (0 : ℝ))])
        [((0 : ℝ), (0 : ℝ)), ((0 : ℝ), (0 : ℝ))]).headD 0 = 0 ∧
    ((Routing._two_opt
        (Routing._nearest_neighbor_order [((0 : ℝ), (0 : ℝ)), ((0 : ℝ), (0 : ℝ))])
        [((0 : ℝ), (0 : ℝ)), ((0 : ℝ), (0 : ℝ))]).tail ~
      List.range' 1 (([((0 : ℝ), (0 : ℝ)), ((0 : ℝ), (0 : ℝ))] : List (ℝ × ℝ)).length - 1)) ∧
    0 ∉ (Routing._two_opt
        (Routing._nearest_neighbor_order [((0 : ℝ), (0 : ℝ)), ((0 : ℝ), (0 : ℝ))])
        [((0 : ℝ), (0 : ℝ)), ((0 : ℝ), (0 : ℝ))]).tail := by
  have h := tour_order_invariants [((0 : ℝ), (0 : ℝ)), ((0 : ℝ), (0 : ℝ))] (by norm_num)
  exact ⟨by norm_num, h.1, h.2.1, h.2.2.1, h.2.2.2⟩

/-- C4 (amended): at each construction step the stop appended next is the
not-yet-visited stop with minimum _haversine distance (the routing module
haversine, not oracle travel time) from the current stop, ties broken in
favour of the smallest index - the iteration order of the unvisited set -
whenever the unvisited list is ascending, as it is in every actual run. -/
theorem nearest_neighbor_step (coords : List (ℝ × ℝ)) (current u : ℕ) (us : List ℕ)
    (hsorted : List.Pairwise (· < ·) (u :: us)) :
    Routing.nnAux coords current (u :: us) =
      Routing.nnPick coords current u us ::
        Routing.nnAux coords (Routing.nnPick coords current u us)
          ((u :: us).erase (Routing.nnPick coords current u us)) ∧
    Routing.nnPick coords current u us ∈ u :: us ∧
    (∀ j ∈ u :: us,
      Routing._haversine (coords.getD current (0, 0))
          (coords.getD (Routing.nnPick coords current u us) (0, 0)) ≤
        Routing._haversine (coords.getD current (0, 0)) (coords.getD j (0, 0))) ∧
    (∀ j ∈ u :: us,
      Routing._haversine (coords.getD current (0, 0)) (coords.getD j (0, 0)) =
        Routing._haversine (coords.getD current (0, 0))
          (coords.getD (Routing.nnPick coords current u us) (0, 0)) →
      Routing.nnPick coords current u us ≤ j) := by
  refine ⟨by rw [Routing.nnAux], ?_, ?_, ?_⟩
  · unfold Routing.nnPick
    exact foldlPick_mem
      (fun i => Routing._haversine (coords.getD current (0, 0)) (coords.getD i (0, 0))) us u
  · intro j hj
    unfold Routing.nnPick
    exact foldlPick_le
      (fun i => Routing._haversine (coords.getD current (0, 0)) (coords.getD i (0, 0))) us u j hj
  · intro j hj hdj
    unfold Routing.nnPick at hdj ⊢
    exact foldlPick_first_tie
      (fun i => Routing._haversine (coords.getD current (0, 0)) (coords.getD i (0, 0)))
      us u hsorted j hj hdj

/-- Witness for C4 (amended), instantiated at a concrete step. -/
theorem nearest_neighbor_step_witness :
    List.Pairwise (· < ·) ([1, 2] : List ℕ) ∧
    (Routing.nnAux [((0:ℝ), (0:ℝ)), ((0:ℝ), (0:ℝ)), ((0:ℝ), (0:ℝ))] 0 (1 :: [2]) =
      Routing.nnPick [((0:ℝ), (0:ℝ)), ((0:ℝ), (0:ℝ)), ((0:ℝ), (0:ℝ))] 0 1 [2] ::
        Routing.nnAux [((0:ℝ), (0:ℝ)), ((0:ℝ), (0:ℝ)), ((0:ℝ), (0:ℝ))]
          (Routing.nnPick [((0:ℝ), (0:ℝ)), ((0:ℝ), (0:ℝ)), ((0:ℝ), (0:ℝ))] 0 1 [2])
          ((1 :: [2]).erase
            (Routing.nnPick [((0:ℝ), (0:ℝ)), ((0:ℝ), (0:ℝ)), ((0:ℝ), (0:ℝ))] 0 1 [2])) ∧
      Routing.nnPick [((0:ℝ), (0:ℝ)), ((0:ℝ), (0:ℝ)), ((0:ℝ), (0:ℝ))] 0 1 [2] ∈ (1 :: [2]) ∧
      (∀ j ∈ (1 :: [2] : List ℕ),
        Routing._haversine
            (([((0:ℝ), (0:ℝ)), ((0:ℝ), (0:ℝ)), ((0:ℝ), (0:ℝ))]).getD 0 (0, 0))
            (([((0:ℝ), (0:ℝ)), ((0:ℝ), (0:ℝ)), ((0:ℝ), (0:ℝ))]).getD
              (Routing.nnPick [((0:ℝ), (0:ℝ)), ((0:ℝ), (0:ℝ)), ((0:ℝ), (0:ℝ))] 0 1 [2])
              (0, 0)) ≤
          Routing._haversine
            (([((0:ℝ), (0:ℝ)), ((0:ℝ), (0:ℝ)), ((0:ℝ), (0:ℝ))]).getD 0 (0, 0))
            (([((0:ℝ), (0:ℝ)), ((0:ℝ), (0:ℝ)), ((0:ℝ), (0:ℝ))]).getD j (0, 0))) ∧
      (∀ j ∈ (1 :: [2] : List ℕ),
        Routing._haversine
            (([((0:ℝ), (0:ℝ)), ((0:ℝ), (0:ℝ)), ((0:ℝ), (0:ℝ))]).getD 0 (0, 0))
            (([((0:ℝ), (0:ℝ)), ((0:ℝ), (0:ℝ)), ((0:ℝ), (0:ℝ))]).getD j (0, 0)) =
          Routing._haversine
            (([((0:ℝ), (0:ℝ)), ((0:ℝ), (0:ℝ)), ((0:ℝ), (0:ℝ))]).getD 0 (0, 0))
            (([((0:ℝ), (0:ℝ)), ((0:ℝ), (0:ℝ)), ((0:ℝ), (0:ℝ))]).getD
              (Routing.nnPick [((0:ℝ), (0:ℝ)), ((0:ℝ), (0:ℝ)), ((0:ℝ), (0:ℝ))] 0 1 [2])
              (0, 0)) →
        Routing.nnPick [((0:ℝ), (0:ℝ)), ((0:ℝ), (0:ℝ)), ((0:ℝ), (0:ℝ))] 0 1 [2] ≤ j)) :=
  ⟨by decide,
    nearest_neighbor_step [((0:ℝ), (0:ℝ)), ((0:ℝ), (0:ℝ)), ((0:ℝ), (0:ℝ))] 0 1 [2] (by decide)⟩

/-- C4 as stated fails on the code: nearest-neighbor selection consults
only _haversine and never the oracle travel times; with this oracle the
time from the depot (index 0) to stop 2 is smaller than to stop 1, yet
the order appends stop 1 first. -/
theorem nearest_neighbor_oracle_cex :
    Routing._nearest_neighbor_order [((0:ℝ), (0:ℝ)), ((0:ℝ), (1:ℝ)), ((0:ℝ), (2:ℝ))] =
      [0, 1, 2] ∧
    (fun e : ℕ × ℕ => if e = (0, 2) then (1 : ℝ) else 10) (0, 2) <
      (fun e : ℕ × ℕ => if e = (0, 2) then (1 : ℝ) else 10) (0, 1) := by
  constructor
  · have h1 : Routing._haversine ((0:ℝ), (0:ℝ)) ((0:ℝ), (1:ℝ)) = 0 := by
      simp [Routing._haversine, radians]
    have h2 : Routing._haversine ((0:ℝ), (0:ℝ)) ((0:ℝ), (2:ℝ)) = 0 := by
      simp [Routing._haversine, radians]
    unfold Routing._nearest_neighbor_order
    have hrange : List.range' 1
        (([((0:ℝ), (0:ℝ)), ((0:ℝ), (1:ℝ)), ((0:ℝ), (2:ℝ))] : List (ℝ × ℝ)).length - 1) =
        [1, 2] := rfl
    rw [hrange]
    have e0 : ([((0:ℝ), (0:ℝ)), ((0:ℝ), (1:ℝ)), ((0:ℝ), (2:ℝ))]).getD 0 ((0:ℝ), (0:ℝ)) =
        ((0:ℝ), (0:ℝ)) := rfl
    have e1 : ([((0:ℝ), (0:ℝ)), ((0:ℝ), (1:ℝ)), ((0:ℝ), (2:ℝ))]).getD 1 ((0:ℝ), (0:ℝ)) =
        ((0:ℝ), (1:ℝ)) := rfl
    have e2 : ([((0:ℝ), (0:ℝ)), ((0:ℝ), (1:ℝ)), ((0:ℝ), (2:ℝ))]).getD 2 ((0:ℝ), (0:ℝ)) =
        ((0:ℝ), (2:ℝ)) := rfl
    have hpick : Routing.nnPick
        [((0:ℝ), (0:ℝ)), ((0:ℝ), (1:ℝ)), ((0:ℝ), (2:ℝ))] 0 1 [2] = 1 := by
      unfold Routing.nnPick
      simp only [List.foldl_cons, List.foldl_nil]
      rw [e0, e1, e2]
      rw [if_neg]
      rw [h1, h2]
      exact lt_irrefl 0
    have herase : ([1, 2] : List ℕ).erase 1 = [2] := rfl
    have hpick2 : Routing.nnPick
        [((0:ℝ), (0:ℝ)), ((0:ℝ), (1:ℝ)), ((0:ℝ), (2:ℝ))] 1 2 [] = 2 := rfl
    have herase2 : ([2] : List ℕ).erase 2 = [] := rfl
    rw [Routing.nnAux]
    simp only [hpick]
    rw [herase]
    rw [Routing.nnAux]
    simp only [hpick2]
    rw [herase2]
    rw [Routing.nnAux]
  · have hne : ((0, 1) : ℕ × ℕ) ≠ (0, 2) := by decide
    simp only [if_pos rfl, if_neg hne]
    norm_num

/-- A tour over exactly two coordinates (depot plus one stop) is [0, 1]:
nearest neighbor has a single candidate and 2-opt scans no pairs. -/
theorem tour_pair (c : List (ℝ × ℝ)) (h : c.length = 2) :
    Routing._two_opt (Routing._nearest_neighbor_order c) c = [0, 1] := by
  have hnn : Routing._nearest_neighbor_order c = [0, 1] := by
    unfold Routing._nearest_neighbor_order
    rw [h]
    have h1 : List.range' 1 (2 - 1) = [1] := rfl
    rw [h1]
    rw [Routing.nnAux]
    have hp : Routing.nnPick c 0 1 [] = 1 := rfl
    simp only [hp]
    have he : ([1] : List ℕ).erase 1 = [] := rfl
    rw [he, Routing.nnAux]
  rw [hnn]
  unfold Routing._two_opt
  rw [Routing.twoOptLoop, dif_neg]
  intro hcontra
  unfold Routing.twoOptPass at hcontra
  have hpairs : Routing.twoOptPairs ([0, 1] : List ℕ).length = [] := rfl
  rw [hpairs] at hcontra
  simp at hcontra

/-- Evaluation of build_day_plan on a single request against an oracle
that answers every edge with t seconds. -/
theorem build_day_plan_single (date_label : ℤ) (r : DeliveryRequest)
    (geo : String → GeocodedLocation) (depot : GeocodedLocation) (t rate maxw : ℝ) :
    Routing.build_day_plan date_label [r] geo depot (fun _ _ _ => some t) rate maxw =
      Except.ok
        { date := date_label, requests := [r], stop_order := [r.postcode],
          drive_minutes := t / 60 + t / 60,
          service_minutes := (1 : ℝ) * rate,
          feasible := decide (t / 60 + t / 60 + (1 : ℝ) * rate ≤ maxw),
          reason := if t / 60 + t / 60 + (1 : ℝ) * rate ≤ maxw then none
            else some (Routing.buildReason (t / 60 + t / 60 + (1 : ℝ) * rate)) } := by
  have horder : Routing.planOrder [r] geo depot = [0, 1] :=
    tour_pair _ (by simp [Routing.planLatLon, Routing.planCoordinates])
  have hedges : Routing.planEdges [r] geo depot = [(0, 1), (1, 0)] := by
    unfold Routing.planEdges
    rw [horder]
    rfl
  unfold Routing.build_day_plan
  rw [if_neg (by simp)]
  rw [hedges, horder]
  simp only [List.map_cons, List.map_nil, List.sum_cons, List.sum_nil, List.tail_cons,
    List.length_cons, List.length_nil]
  norm_num

/-- C3: for every plan built by build_day_plan whose oracle answers every
requested edge, drive_minutes equals the sum, over every edge of the
closed tour depot to stops and back (consecutive pairs of the order plus
the closing edge), of the oracle time in seconds divided by 60 - no edge
of the closed path omitted. -/
theorem drive_minutes_sums_closed_tour
    (date_label : ℤ) (deliveries : List DeliveryRequest)
    (geo_locations : String → GeocodedLocation) (depot : GeocodedLocation)
    (matrix_builder : List GeocodedLocation → List (ℕ × ℕ) → ((ℕ × ℕ) → Option ℝ))
    (rate maxw : ℝ) (plan : DayPlan)
    (hok : Routing.build_day_plan date_label deliveries geo_locations depot
      matrix_builder rate maxw = Except.ok plan)
    (hcov : ∀ e ∈ Routing.planEdges deliveries geo_locations depot,
      (matrix_builder (Routing.planCoordinates deliveries geo_locations depot)
        (Routing.planEdges deliveries geo_locations depot) e).isSome) :
    plan.drive_minutes =
      ((Routing.planEdges deliveries geo_locations depot).map (fun e =>
        (matrix_builder (Routing.planCoordinates deliveries geo_locations depot)
          (Routing.planEdges deliveries geo_locations depot) e).getD 0 / 60)).sum := by
  by_cases hnil : deliveries = []
  · rw [hnil] at hok
    unfold Routing.build_day_plan at hok
    simp at hok
  · unfold Routing.build_day_plan at hok
    rw [if_neg hnil] at hok
    have hx := Except.ok.inj hok
    subst hx
    simp only
    apply congrArg
    apply List.map_congr_left
    intro e he
    obtain ⟨tt, htt⟩ := Option.isSome_iff_exists.1 (hcov e he)
    rw [htt]
    simp

/-- Witness for C3 at a concrete one-request plan with a total oracle. -/
theorem drive_minutes_sums_closed_tour_witness :
    (Routing.build_day_plan 0 [⟨"A", "P", 0, none⟩] (fun _ => ⟨"L", 0, 0⟩) ⟨"D", 0, 0⟩
        (fun _ _ _ => some 60) 10 480 =
      Except.ok
        { date := 0, requests := [⟨"A", "P", 0, none⟩], stop_order := ["P"],
          drive_minutes := 2, service_minutes := 10, feasible := true, reason := none }) ∧
    (∀ e ∈ Routing.planEdges [⟨"A", "P", 0, none⟩] (fun _ => ⟨"L", 0, 0⟩) ⟨"D", 0, 0⟩,
      (((fun _ _ _ => some 60) : List GeocodedLocation → List (ℕ × ℕ) → ((ℕ × ℕ) → Option ℝ))
        (Routing.planCoordinates [⟨"A", "P", 0, none⟩] (fun _ => ⟨"L", 0, 0⟩) ⟨"D", 0, 0⟩)
        (Routing.planEdges [⟨"A", "P", 0, none⟩] (fun _ => ⟨"L", 0, 0⟩) ⟨"D", 0, 0⟩)
        e).isSome) ∧
    ({ date := 0, requests := [⟨"A", "P", 0, none⟩], stop_order := ["P"],
        drive_minutes := 2, service_minutes := 10, feasible := true,
        reason := none } : DayPlan).drive_minutes =
      ((Routing.planEdges [⟨"A", "P", 0, none⟩] (fun _ => ⟨"L", 0, 0⟩) ⟨"D", 0, 0⟩).map
        (fun e =>
          (((fun _ _ _ => some 60) :
              List GeocodedLocation → List (ℕ × ℕ) → ((ℕ × ℕ) → Option ℝ))
            (Routing.planCoordinates [⟨"A", "P", 0, none⟩] (fun _ => ⟨"L", 0, 0⟩) ⟨"D", 0, 0⟩)
            (Routing.planEdges [⟨"A", "P", 0, none⟩] (fun _ => ⟨"L", 0, 0⟩) ⟨"D", 0, 0⟩)
            e).getD 0 / 60)).sum := by
  have hok : Routing.build_day_plan 0 [(⟨"A", "P", 0, none⟩ : DeliveryRequest)]
      (fun _ => ⟨"L", 0, 0⟩) ⟨"D", 0, 0⟩ (fun _ _ _ => some 60) 10 480 =
      Except.ok
        { date := 0, requests := [⟨"A", "P", 0, none⟩], stop_order := ["P"],
          drive_minutes := 2, service_minutes := 10, feasible := true, reason := none } := by
    rw [build_day_plan_single]
    norm_num
  have hcov : ∀ e ∈ Routing.planEdges [(⟨"A", "P", 0, none⟩ : DeliveryRequest)]
      (fun _ => ⟨"L", 0, 0⟩) ⟨"D", 0, 0⟩,
      (((fun _ _ _ => some 60) : List GeocodedLocation → List (ℕ × ℕ) → ((ℕ × ℕ) → Option ℝ))
        (Routing.planCoordinates [⟨"A", "P", 0, none⟩] (fun _ => ⟨"L", 0, 0⟩) ⟨"D", 0, 0⟩)
        (Routing.planEdges [⟨"A", "P", 0, none⟩] (fun _ => ⟨"L", 0, 0⟩) ⟨"D", 0, 0⟩)
        e).isSome := fun _ _ => rfl
  exact ⟨hok, hcov,
    drive_minutes_sums_closed_tour 0 _ _ _ _ 10 480 _ hok hcov⟩

/-- C7 (amended): service_minutes is the request count times the per-stop
rate; feasible holds exactly when drive plus service time is within the
workday limit, boundary inclusive; an infeasible plan is still returned
as Except.ok with reason populated - by the message built from the
computed total alone (the limit value is not part of the message). -/
theorem day_plan_feasibility
    (date_label : ℤ) (deliveries : List DeliveryRequest)
    (geo_locations : String → GeocodedLocation) (depot : GeocodedLocation)
    (matrix_builder : List GeocodedLocation → List (ℕ × ℕ) → ((ℕ × ℕ) → Option ℝ))
    (rate maxw : ℝ) (plan : DayPlan)
    (hok : Routing.build_day_plan date_label deliveries geo_locations depot
      matrix_builder rate maxw = Except.ok plan) :
    plan.service_minutes = (deliveries.length : ℝ) * rate ∧
    (plan.feasible = true ↔ plan.drive_minutes + plan.service_minutes ≤ maxw) ∧
    (plan.feasible = false →
      plan.reason = some (Routing.buildReason (plan.drive_minutes + plan.service_minutes))) ∧
    (plan.feasible = true → plan.reason = none) := by
  by_cases hnil : deliveries = []
  · rw [hnil] at hok
    unfold Routing.build_day_plan at hok
    simp at hok
  · unfold Routing.build_day_plan at hok
    rw [if_neg hnil] at hok
    have hx := Except.ok.inj hok
    subst hx
    refine ⟨rfl, ?_, ?_, ?_⟩
    · simp [decide_eq_true_eq]
    · intro hf
      simp only at hf ⊢
      rw [if_neg]
      exact of_decide_eq_false hf
    · intro hf
      simp only at hf ⊢
      rw [if_pos]
      exact of_decide_eq_true hf

/-- Witness for C7 (amended) at the boundary: total 500 against limit 500
is feasible (inclusive boundary) and reason is empty. -/
theorem day_plan_feasibility_witness :
    (Routing.build_day_plan 0 [⟨"A", "P", 0, none⟩] (fun _ => ⟨"L", 0, 0⟩) ⟨"D", 0, 0⟩
        (fun _ _ _ => some 14100) 30 500 =
      Except.ok
        { date := 0, requests := [⟨"A", "P", 0, none⟩], stop_order := ["P"],
          drive_minutes := 470, service_minutes := 30, feasible := true,
          reason := none }) ∧
    ({ date := 0, requests := [⟨"A", "P", 0, none⟩], stop_order := ["P"],
        drive_minutes := 470, service_minutes := 30, feasible := true,
        reason := none } : DayPlan).service_minutes =
      (([(⟨"A", "P", 0, none⟩ : DeliveryRequest)]).length : ℝ) * 30 ∧
    (({ date := 0, requests := [⟨"A", "P", 0, none⟩], stop_order := ["P"],
        drive_minutes := 470, service_minutes := 30, feasible := true,
        reason := none } : DayPlan).feasible = true ↔
      ({ date := 0, requests := [⟨"A", "P", 0, none⟩], stop_order := ["P"],
          drive_minutes := 470, service_minutes := 30, feasible := true,
          reason := none } : DayPlan).drive_minutes +
        ({ date := 0, requests := [⟨"A", "P", 0, none⟩], stop_order := ["P"],
            drive_minutes := 470, service_minutes := 30, feasible := true,
            reason := none } : DayPlan).service_minutes ≤ 500) := by
  have hok : Routing.build_day_plan 0 [(⟨"A", "P", 0, none⟩ : DeliveryRequest)]
      (fun _ => ⟨"L", 0, 0⟩) ⟨"D", 0, 0⟩ (fun _ _ _ => some 14100) 30 500 =
      Except.ok
        { date := 0, requests := [⟨"A", "P", 0, none⟩], stop_order := ["P"],
          drive_minutes := 470, service_minutes := 30, feasible := true,
          reason := none } := by
    rw [build_day_plan_single]
    norm_num
  have h := day_plan_feasibility 0 _ _ _ _ 30 500 _ hok
  exact ⟨hok, h.1, h.2.1⟩

/-- C7 as stated fails: the reason message interpolates only the computed
total, never the limit, so the plans for limits 499 and 300 carry the
identical reason string "Estimated 500.0 min exceeds limit"; it cannot be
stating the computed total against the limit (no citation of 499). -/
theorem day_plan_reason_limit_free_cex :
    Routing.build_day_plan 0 [⟨"A", "P", 0, none⟩] (fun _ => ⟨"L", 0, 0⟩) ⟨"D", 0, 0⟩
        (fun _ _ _ => some 14100) 30 499 =
      Except.ok
        { date := 0, requests := [⟨"A", "P", 0, none⟩], stop_order := ["P"],
          drive_minutes := 470, service_minutes := 30, feasible := false,
          reason := some (Routing.buildReason 500) } ∧
    Routing.build_day_plan 0 [⟨"A", "P", 0, none⟩] (fun _ => ⟨"L", 0, 0⟩) ⟨"D", 0, 0⟩
        (fun _ _ _ => some 14100) 30 300 =
      Except.ok
        { date := 0, requests := [⟨"A", "P", 0, none⟩], stop_order := ["P"],
          drive_minutes := 470, service_minutes := 30, feasible := false,
          reason := some (Routing.buildReason 500) } ∧
    Routing.buildReason 500 = "Estimated 500.0 min exceeds limit" := by
  refine ⟨?_, ?_, ?_⟩
  · rw [build_day_plan_single]
    norm_num
  · rw [build_day_plan_single]
    norm_num
  · unfold Routing.buildReason Routing.fmt1
    have hfloor : (⌊(500 : ℝ) * 10 + 1 / 2⌋ : ℤ) = 5000 := by
      rw [Int.floor_eq_iff]
      constructor <;> norm_num
    rw [hfloor]
    rfl

theorem dedupeGo_eq_self : ∀ (l : List GeocodedLocation) (seen : List String),
    (∀ x ∈ l, x.identifier ∉ seen) → (l.map (fun x => x.identifier)).Nodup →
    GeoapifyClient.dedupeGo seen l = l := by
  intro l
  induction l with
  | nil => intro seen _ _; rfl
  | cons a t ih =>
    intro seen hseen hnodup
    rw [List.map_cons, List.nodup_cons] at hnodup
    simp only [GeoapifyClient.dedupeGo]
    rw [if_neg (hseen a (List.mem_cons_self a t))]
    congr 1
    apply ih
    · intro x hx hmem
      rcases List.mem_cons.1 hmem with h | h
      · exact hnodup.1 (h ▸ List.mem_map_of_mem _ hx)
      · exact hseen x (List.mem_cons_of_mem a hx) h
    · exact hnodup.2

theorem dedupe_eq_self (l : List GeocodedLocation)
    (h : (l.map (fun x => x.identifier)).Nodup) : GeoapifyClient._dedupe l = l :=
  dedupeGo_eq_self l [] (by simp) h

theorem route_matrix_budget_check (origins targets : List GeocodedLocation)
    (sources_to_targets : List (List ℝ))
    (h : 1000 < (GeoapifyClient._dedupe origins).length *
      (GeoapifyClient._dedupe targets).length) :
    GeoapifyClient.route_matrix origins targets sources_to_targets =
      Except.error "Route matrix request exceeds Geoapify cell limit (1000)" := by
  have hopos : 0 < (GeoapifyClient._dedupe origins).length := by
    rcases Nat.eq_zero_or_pos (GeoapifyClient._dedupe origins).length with h0 | h0
    · rw [h0] at h
      simp at h
    · exact h0
  have htpos : 0 < (GeoapifyClient._dedupe targets).length := by
    rcases Nat.eq_zero_or_pos (GeoapifyClient._dedupe targets).length with h0 | h0
    · rw [h0] at h
      simp at h
    · exact h0
  unfold GeoapifyClient.route_matrix
  rw [if_pos]
  refine ⟨?_, ?_, ?_⟩
  · apply List.ne_nil_of_length_pos
    rw [List.length_map]
    exact hopos
  · apply List.ne_nil_of_length_pos
    rw [List.length_map]
    exact htpos
  · rw [List.length_map, List.length_map]
    exact h

/-- C5 (amended): when the deduplicated origins times the deduplicated
targets exceed the 1000-cell budget, route_matrix raises ValueError
("Route matrix request exceeds Geoapify cell limit (1000)") instead of
splitting the request into batched queries; no query is issued and no
pairs are returned. -/
theorem route_matrix_over_budget_errors (origins targets : List GeocodedLocation)
    (sources_to_targets : List (List ℝ))
    (h : 1000 < (GeoapifyClient._dedupe origins).length *
      (GeoapifyClient._dedupe targets).length) :
    GeoapifyClient.route_matrix origins targets sources_to_targets =
      Except.error "Route matrix request exceeds Geoapify cell limit (1000)" :=
  route_matrix_budget_check origins targets sources_to_targets h

theorem budget_instance_gt :
    1000 < (GeoapifyClient._dedupe [(⟨"O", 0, 0⟩ : GeocodedLocation)]).length *
      (GeoapifyClient._dedupe ((List.range 1001).map
        (fun i => (⟨String.mk (List.replicate i 'a'), 0, 0⟩ : GeocodedLocation)))).length := by
  have hinj : Function.Injective (fun i : ℕ => String.mk (List.replicate i 'a')) := by
    intro i j hij
    have hdata := congrArg String.data hij
    simpa using congrArg List.length hdata
  have ht : GeoapifyClient._dedupe ((List.range 1001).map
      (fun i => (⟨String.mk (List.replicate i 'a'), 0, 0⟩ : GeocodedLocation))) =
      (List.range 1001).map
        (fun i => (⟨String.mk (List.replicate i 'a'), 0, 0⟩ : GeocodedLocation)) := by
    apply dedupe_eq_self
    rw [List.map_map]
    exact List.Nodup.map hinj (List.nodup_range 1001)
  have ho : GeoapifyClient._dedupe [(⟨"O", 0, 0⟩ : GeocodedLocation)] =
      [(⟨"O", 0, 0⟩ : GeocodedLocation)] := by
    apply dedupe_eq_self
    simp
  rw [ho, ht, List.length_map, List.length_range]
  norm_num

/-- Witness for C5 (amended): one origin with 1001 distinct targets. -/
theorem route_matrix_over_budget_errors_witness :
    1000 < (GeoapifyClient._dedupe [(⟨"O", 0, 0⟩ : GeocodedLocation)]).length *
      (GeoapifyClient._dedupe ((List.range 1001).map
        (fun i => (⟨String.mk (List.replicate i 'a'), 0, 0⟩ : GeocodedLocation)))).length ∧
    GeoapifyClient.route_matrix [⟨"O", 0, 0⟩]
        ((List.range 1001).map
          (fun i => (⟨String.mk (List.replicate i 'a'), 0, 0⟩ : GeocodedLocation)))
        [] =
      Except.error "Route matrix request exceeds Geoapify cell limit (1000)" :=
  ⟨budget_instance_gt, route_matrix_over_budget_errors _ _ _ budget_instance_gt⟩

/-- C5 as stated fails: requesting 1001 targets from one origin does not
issue multiple batched queries whose union covers the requested pairs -
route_matrix raises the cell-limit ValueError and returns no pairs at
all. -/
theorem route_matrix_no_batching_cex :
    GeoapifyClient.route_matrix [(⟨"O", 0, 0⟩ : GeocodedLocation)]
        ((List.range 1001).map
          (fun i => (⟨String.mk (List.replicate i 'a'), 0, 0⟩ : GeocodedLocation)))
        [] =
      Except.error "Route matrix request exceeds Geoapify cell limit (1000)" ∧
    ¬ ∃ pairs, GeoapifyClient.route_matrix [(⟨"O", 0, 0⟩ : GeocodedLocation)]
        ((List.range 1001).map
          (fun i => (⟨String.mk (List.replicate i 'a'), 0, 0⟩ : GeocodedLocation)))
        [] = Except.ok pairs := by
  have herr := route_matrix_budget_check _ _ [] budget_instance_gt
  refine ⟨herr, ?_⟩
  rintro ⟨pairs, hok⟩
  rw [herr] at hok
  cases hok

/-- At two equatorial points the routing haversine evaluates to 0, since
its dlon is computed from lat2 - lon1, which vanishes here. -/
theorem haversine_routing_equator_zero : Routing._haversine (0, 0) (0, 90) = 0 := by
  simp [Routing._haversine, radians]

theorem haversine_km_equator_pos :
    0 < DeliveryPlanner._haversine_km ⟨"A", 0, 0⟩ ⟨"B", 0, 90⟩ := by
  have h4 : radians 90 / 2 = Real.pi / 4 := by
    unfold radians; ring
  have hs : Real.sin (radians 90 / 2) ^ 2 = 1 / 2 := by
    rw [h4, Real.sin_pi_div_four]
    rw [div_pow, Real.sq_sqrt (by norm_num : (2:ℝ) ≥ 0)]
    norm_num
  unfold DeliveryPlanner._haversine_km
  simp only [radians, zero_mul, zero_div, sub_zero, zero_sub, sub_self]
  have : (90 : ℝ) * Real.pi / 180 / 2 = Real.pi / 4 := by ring
  rw [this, Real.sin_pi_div_four]
  have hh : Real.sin 0 ^ 2 + Real.cos 0 * Real.cos 0 * (Real.sqrt 2 / 2) ^ 2
      = 1 / 2 := by
    rw [Real.sin_zero, Real.cos_zero, div_pow, Real.sq_sqrt (by norm_num : (2:ℝ) ≥ 0)]
    norm_num
  rw [hh]
  have h1 : 0 < Real.arcsin (Real.sqrt (1 / 2)) :=
    Real.arcsin_pos.2 (Real.sqrt_pos.2 (by norm_num))
  nlinarith [h1]

/-- C1: a code bug - routing._haversine computes dlon from lat2 - lon1,
a transposed index in place of lon2 - lon1, so it is not the haversine
distance and disagrees with delivery_planner._haversine_km on the same
two points: from (0,0) to (0,90) it returns 0 while the clusterer
distance is strictly positive (a quarter of the great circle). -/
theorem haversine_functions_disagree :
    Routing._haversine (0, 0) (0, 90) = 0 ∧
    0 < DeliveryPlanner._haversine_km ⟨"A", 0, 0⟩ ⟨"B", 0, 90⟩ ∧
    Routing._haversine (0, 0) (0, 90) ≠
      DeliveryPlanner._haversine_km ⟨"A", 0, 0⟩ ⟨"B", 0, 90⟩ := by
  refine ⟨haversine_routing_equator_zero, haversine_km_equator_pos, ?_⟩
  rw [haversine_routing_equator_zero]
  exact fun h => absurd h.symm (ne_of_gt haversine_km_equator_pos)
